import Mathlib

/-!
# Verification of `alfred-fuzzy` (`fuzzy.py`)

A shallow embedding of the core of `deanishe/alfred-fuzzy`'s `fuzzy.py`:

* the fuzzy matcher `Fuzzy.match` (single-pass subsequence scorer),
* the feedback filter `Fuzzy.filter_feedback`,
* diacritic folding `fold_diacritics` / `isascii`,
* the session cache `Cache.load` / `Cache.session_id` / `Cache.cache_path`.

Python strings are embedded as `List Char` (Unicode code points), Python
integers as `Int`, Python dicts of the feedback document as explicit
structures.  Stateful code (`Cache`) is embedded by explicit passing of a
`World` value holding the file system, environment, and producer outcome.
-/

namespace AlfredFuzzy

/-- Scoring configuration of a `Fuzzy` instance (`Fuzzy.__init__`).
Defaults mirror the module-level defaults read from the environment. -/
structure Config where
  adj_bonus : Int
  sep_bonus : Int
  camel_bonus : Int
  lead_penalty : Int
  max_lead_penalty : Int
  unmatched_penalty : Int
  separators : List Char
deriving Repr, DecidableEq

/-- The default configuration: `adj_bonus=5`, `camel_bonus=10`,
`lead_penalty=-3`, `max_lead_penalty=-9`, `sep_bonus=10`,
`unmatched_penalty=-1`, `separators='_-.([/ '`. -/
def defaultConfig : Config :=
  { adj_bonus := 5
    sep_bonus := 10
    camel_bonus := 10
    lead_penalty := -3
    max_lead_penalty := -9
    unmatched_penalty := -1
    separators := "_-.([/ ".toList }

/-- The mutable local variables of the scoring loop of `Fuzzy.match`
(lines 187-192 of `fuzzy.py`).  `best_lower` is kept as a separate field,
exactly as in the source, even though it always holds
`best_letter.map Char.toLower`. -/
structure MatchState where
  score : Int
  q_idx : Nat
  prev_match : Bool
  prev_lower : Bool
  prev_sep : Bool
  best_letter : Option Char
  best_lower : Option Char
  best_letter_idx : Option Nat
  best_letter_score : Int
  matched_indices : List (Option Nat)
deriving Repr, DecidableEq

/-- Initial state of the scoring loop: `score, q_idx = 0, 0`;
`prev_match, prev_lower = False, False`; `prev_sep = True`;
no pending best letter; empty `matched_indices`. -/
def initState : MatchState :=
  { score := 0
    q_idx := 0
    prev_match := false
    prev_lower := false
    prev_sep := true
    best_letter := none
    best_lower := none
    best_letter_idx := none
    best_letter_score := 0
    matched_indices := [] }

/-- `next_match = p_char and p_lower == s_lower` where
`p_char = query[q_idx] if q_idx != q_len else None` (a `None` is falsy). -/
def nextMatchB (query : List Char) (q_idx : Nat) (s_char : Char) : Bool :=
  (query[q_idx]?).any fun p => p.toLower == s_char.toLower

/-- One iteration of the `while t_idx != t_len` loop of `Fuzzy.match`
(lines 194-255 of `fuzzy.py`), processing text character `s_char` at
position `t_idx`.  The branch structure and the order of score updates
follow the source line by line. -/
def step (cfg : Config) (query : List Char) (t_idx : Nat) (s_char : Char)
    (st : MatchState) : MatchState :=
  let s_lower := s_char.toLower
  let s_upper := s_char.toUpper
  let next_match := nextMatchB query st.q_idx s_char
  let rematch := st.best_letter.isSome && (st.best_lower == some s_lower)
  let advanced := next_match && st.best_letter.isSome
  let p_repeat := st.best_letter.isSome &&
    (query[st.q_idx]?).any fun p => st.best_lower == some p.toLower
  -- `if advanced or p_repeat:` commit the pending best letter
  let st1 :=
    if advanced || p_repeat then
      { st with
          score := st.score + st.best_letter_score
          matched_indices := st.matched_indices ++ [st.best_letter_idx]
          best_letter := none
          best_lower := none
          best_letter_idx := none
          best_letter_score := 0 }
    else st
  if next_match || rematch then
    -- leading penalty applies only while the query cursor is at 0
    let score1 :=
      if st1.q_idx == 0 then
        st1.score + max ((t_idx : Int) * cfg.lead_penalty) cfg.max_lead_penalty
      else st1.score
    let new_score :=
      (if st1.prev_match then cfg.adj_bonus else 0) +
      (if st1.prev_sep then cfg.sep_bonus else 0) +
      (if st1.prev_lower && (s_char == s_upper) && (s_lower != s_upper) then
        cfg.camel_bonus else 0)
    let q_idx1 := if next_match then st1.q_idx + 1 else st1.q_idx
    if new_score ≥ st1.best_letter_score then
      { score := if st1.best_letter.isSome then score1 + cfg.unmatched_penalty
                 else score1
        q_idx := q_idx1
        prev_match := true
        prev_lower := (s_char == s_lower) && (s_lower != s_upper)
        prev_sep := cfg.separators.contains s_char
        best_letter := some s_char
        best_lower := some s_char.toLower
        best_letter_idx := some t_idx
        best_letter_score := new_score
        matched_indices := st1.matched_indices }
    else
      { st1 with
          score := score1
          q_idx := q_idx1
          prev_match := true
          prev_lower := (s_char == s_lower) && (s_lower != s_upper)
          prev_sep := cfg.separators.contains s_char }
  else
    { st1 with
        score := st1.score + cfg.unmatched_penalty
        prev_match := false
        prev_lower := (s_char == s_lower) && (s_lower != s_upper)
        prev_sep := cfg.separators.contains s_char }

/-- The scoring loop of `Fuzzy.match`, iterating `step` over the remaining
text characters, `t_idx` tracking the position in the full text. -/
def matchLoop (cfg : Config) (query : List Char) :
    Nat → List Char → MatchState → MatchState
  | _, [], st => st
  | t_idx, c :: rest, st =>
      matchLoop cfg query (t_idx + 1) rest (step cfg query t_idx c st)

/-- `Fuzzy.match(query, terms)` (lines 161-264 of `fuzzy.py`): runs the
scoring loop, commits a leftover pending best letter, and returns
`(q_idx == q_len, score)`.  The per-instance memo cache `self._cache`
stores previously computed results of this same pure function and is
omitted. -/
def fuzzyMatch (cfg : Config) (query terms : List Char) : Bool × Int :=
  let st := matchLoop cfg query 0 terms initState
  let st :=
    if st.best_letter.isSome then
      { st with
          score := st.score + st.best_letter_score
          matched_indices := st.matched_indices ++ [st.best_letter_idx] }
    else st
  (st.q_idx == query.length, st.score)

/-- The evolution of the query cursor over a text suffix: the greedy
case-insensitive subsequence scan. -/
def greedyAdv (query : List Char) : Nat → List Char → Nat
  | i, [] => i
  | i, c :: rest => greedyAdv query (if nextMatchB query i c then i + 1 else i) rest

/-! ## Diacritic folding and the feedback filter -/

/-- Canonical (NFD) decomposition of a single character, as performed by
Python's `unicodedata.normalize('NFD', u)`.  The full Unicode table is
external to the repository; this embedding restricts it to the characters
exercised here: ASCII characters (which NFD leaves unchanged) and the
precomposed letters listed below.  Every other character is treated as
having no decomposition. -/
def nfd (c : Char) : List Char :=
  if c = 'é' then ['e', Char.ofNat 0x301]
  else if c = 'É' then ['E', Char.ofNat 0x301]
  else if c = 'è' then ['e', Char.ofNat 0x300]
  else if c = 'á' then ['a', Char.ofNat 0x301]
  else if c = 'ü' then ['u', Char.ofNat 0x308]
  else if c = 'ö' then ['o', Char.ofNat 0x308]
  else if c = 'ç' then ['c', Char.ofNat 0x327]
  else [c]

/-- `fold_diacritics(u)`: NFD-normalise, then encode as US-ASCII with
`errors='ignore'`, which drops every code point ≥ 128 (in particular the
combining marks produced by the decomposition). -/
def fold_diacritics (u : List Char) : List Char :=
  ((u.map nfd).flatten).filter fun c => c.val < 128

/-- `isascii(u)`: `True` iff `u == fold_diacritics(u)`. -/
def isascii (u : List Char) : Bool :=
  u == fold_diacritics u

/-- One item of the feedback document: an Alfred result dict.  The core
reads only its `title` and optional `match` keys; this embedding restricts
the dict to exactly those keys (`matchField = none` models a dict without
a `match` key). -/
structure Item where
  title : List Char
  matchField : Option (List Char)
deriving Repr, DecidableEq

/-- `it['match'] if 'match' in it else it['title']` (line 146). -/
def itemTerms (it : Item) : List Char :=
  it.matchField.getD it.title

/-- The match text actually scored for an item: folded when the query is
pure ASCII (`fold`), as-is otherwise (lines 146-148). -/
def scoredTerms (fold : Bool) (it : Item) : List Char :=
  if fold then fold_diacritics (itemTerms it) else itemTerms it

/-- The loop of `filter_feedback` building the `items` list of
`(score, it)` tuples for the items whose match succeeds, in input order
(lines 144-154). -/
def collectScored (cfg : Config) (fold : Bool) (query : List Char) :
    List Item → List (Int × Item)
  | [] => []
  | it :: rest =>
      let r := fuzzyMatch cfg query (scoredTerms fold it)
      if r.1 then (r.2, it) :: collectScored cfg fold query rest
      else collectScored cfg fold query rest

/-- Python 2 comparison of two Unicode strings: lexicographic by code
point. -/
def pyCmpStr : List Char → List Char → Ordering
  | [], [] => .eq
  | [], _ :: _ => .lt
  | _ :: _, [] => .gt
  | a :: as_, b :: bs =>
      if a.toNat < b.toNat then .lt
      else if b.toNat < a.toNat then .gt
      else pyCmpStr as_ bs

/-- Python 2 comparison of two integers. -/
def pyCmpInt (a b : Int) : Ordering :=
  if a < b then .lt else if b < a then .gt else .eq

/-- Python 2 comparison of two item dicts, as used by
`items.sort(reverse=True)` on `(score, it)` tuples when scores tie.
Python 2 compares dicts first by length (a dict without a `match` key has
1 key, one with it has 2), then at the smallest key whose values differ;
the key `'match'` sorts before `'title'`. -/
def pyCmpItem (a b : Item) : Ordering :=
  match a.matchField, b.matchField with
  | none, none => pyCmpStr a.title b.title
  | none, some _ => .lt
  | some _, none => .gt
  | some ma, some mb => (pyCmpStr ma mb).then (pyCmpStr a.title b.title)

/-- Python 2 comparison of the `(score, it)` tuples built by
`filter_feedback`: lexicographic. -/
def pyCmpPair (a b : Int × Item) : Ordering :=
  (pyCmpInt a.1 b.1).then (pyCmpItem a.2 b.2)

/-- Insertion of an element into a list already sorted in descending
`pyCmpPair` order, placing it before the first element it is not strictly
below.  Inserting input elements left to right through this function is
extensionally the stable descending sort performed by
`items.sort(reverse=True)`. -/
def insertDesc (x : Int × Item) : List (Int × Item) → List (Int × Item)
  | [] => [x]
  | y :: ys => if pyCmpPair x y = .lt then y :: insertDesc x ys else x :: y :: ys

/-- `items.sort(reverse=True)` (line 156): stable sort of the
`(score, it)` tuples in descending Python 2 tuple order. -/
def sortDesc : List (Int × Item) → List (Int × Item)
  | [] => []
  | x :: xs => insertDesc x (sortDesc xs)

/-- The feedback document: the `items` list plus the optional `variables`
string-to-string mapping (the only other key the core touches; the field
is named `vars` because `variables` is a Lean keyword). -/
structure FeedbackDoc where
  items : List Item
  vars : Option (List (List Char × List Char))
deriving Repr, DecidableEq

/-- `Fuzzy.filter_feedback(fb, query)` (lines 124-158): decide the fold
mode once from the query, score every item, keep the matching ones, sort
the `(score, it)` tuples descending, and replace `fb['items']` with the
surviving items. -/
def filter_feedback (cfg : Config) (fb : FeedbackDoc) (query : List Char) :
    FeedbackDoc :=
  let fold := isascii query
  let items := collectScored cfg fold query fb.items
  let items := sortDesc items
  { fb with items := items.map Prod.snd }

/-- The score `filter_feedback` assigns to an item under a query: the
score of the match against the item's (possibly folded) match text. -/
def scoreOf (cfg : Config) (query : List Char) (it : Item) : Int :=
  (fuzzyMatch cfg query (scoredTerms (isascii query) it)).2

/-! ## The session cache (`Cache`) -/

/-- The well-known variable key under which the session id is injected:
the default value `'fuzzy_session_id'` of the module constant `SID`
(line 45; the `session_var` environment override is not modelled). -/
def SID : String := "fuzzy_session_id"

/-- The byte content of a file or of the producer's standard output.  The
textual JSON layer is collapsed: `doc fb` stands for the `json.dump`
serialisation of the feedback document `fb`, and `malformed` for any
bytes that `json.loads` rejects. -/
inductive Blob where
  | malformed : Blob
  | doc : FeedbackDoc → Blob
deriving Repr, DecidableEq

/-- `json.loads`: recover the document from a serialised blob, or fail. -/
def jsonLoads : Blob → Option FeedbackDoc
  | .malformed => none
  | .doc fb => some fb

/-- `json.dump(fb, fp)`: the blob written for a document. -/
def jsonDump (fb : FeedbackDoc) : Blob := .doc fb

/-- The Python exceptions that can escape `Cache.load`. -/
inductive PyErr where
  | calledProcessError : PyErr
  | jsonError : PyErr
  | osError : PyErr
deriving Repr, DecidableEq

/-- Outcome of `check_output(self.cmd)`: the producer's standard output,
or a raised `OSError` (launch failure) / `CalledProcessError` (nonzero
exit). -/
inductive ProducerResult where
  | fail : ProducerResult
  | output : Blob → ProducerResult
deriving Repr, DecidableEq

/-- The ambient state `Cache.load` interacts with: the files of the cache
directory, whether the `_fuzzy` cache directory exists, the process id,
the `fuzzy_session_id` environment variable, the outcome of running the
producer command, and whether `os.makedirs` / `open(…,'wb')` would
succeed. -/
structure World where
  cacheRoot : String
  files : List (String × Blob)
  dirExists : Bool
  pid : Nat
  envSession : Option String
  producer : ProducerResult
  mkdirOk : Bool
  writeOk : Bool
deriving Repr, DecidableEq

/-- First binding of a path in the file listing. -/
def lookupFile : List (String × Blob) → String → Option Blob
  | [], _ => none
  | (p, b) :: rest, q => if p = q then some b else lookupFile rest q

/-- Overwrite or create a file. -/
def writeFileList : List (String × Blob) → String → Blob → List (String × Blob)
  | [], q, b => [(q, b)]
  | (p, b') :: rest, q, b =>
      if p = q then (q, b) :: rest else (p, b') :: writeFileList rest q b

/-- `self.cache_dir = os.path.join(CACHEDIR, '_fuzzy')` (line 279). -/
def cacheDirOf (w : World) : String := w.cacheRoot ++ "/_fuzzy"

/-- `Cache.session_id` (lines 317-328): the externally supplied token if
the session variable is set (also setting `_from_cache`), else
`str(os.getpid())`.  Returns `(session_id, _from_cache)`. -/
def sessionId (w : World) : String × Bool :=
  match w.envSession with
  | some sid => (sid, true)
  | none => (toString w.pid, false)

/-- `Cache.cache_path` (lines 330-341): create the cache directory if
missing (fatal on failure), then return
`os.path.join(self.cache_dir, self.session_id + '.json')`.  Also returns
the world, with the directory now existing on success. -/
def cachePath (w : World) (sid : String) : Except PyErr String × World :=
  if w.dirExists then
    (.ok (cacheDirOf w ++ "/" ++ sid ++ ".json"), w)
  else if w.mkdirOk then
    (.ok (cacheDirOf w ++ "/" ++ sid ++ ".json"), { w with dirExists := true })
  else
    (.error .osError, w)

/-- `fb['variables'][SID] = sid` on a Python dict: replace the value of an
existing key, else add the binding. -/
def setKey : List (List Char × List Char) → List Char → List Char →
    List (List Char × List Char)
  | [], k, v => [(k, v)]
  | (k', v') :: rest, k, v =>
      if k' = k then (k, v) :: rest else (k', v') :: setKey rest k v

/-- Lines 303-307: inject the session id into the document's `variables`
mapping, creating the mapping when absent. -/
def injectSid (fb : FeedbackDoc) (sid : String) : FeedbackDoc :=
  match fb.vars with
  | some m => { fb with vars := some (setKey m SID.toList sid.toList) }
  | none => { fb with vars := some [(SID.toList, sid.toList)] }

/-- `Cache.load` (lines 284-315).  Control flow of the source:

```
sid = self.session_id
if self._from_cache and os.path.exists(self.cache_path):
    js = read(self.cache_path)
else:
    js = check_output(self.cmd)
fb = json.loads(js)
if not self._from_cache:
    inject sid into fb['variables']; write fb to self.cache_path
return fb
```

Note that `self.cache_path` is only evaluated in the condition when
`self._from_cache` is true (`and` short-circuits), and that the
injection/write block is skipped entirely for resumed sessions.  Returns
the outcome together with the world after any effects performed before a
raise. -/
def load (w : World) : Except PyErr FeedbackDoc × World :=
  let (sid, from_cache) := sessionId w
  if from_cache then
    match cachePath w sid with
    | (.error e, w1) => (.error e, w1)
    | (.ok path, w1) =>
      match lookupFile w1.files path with
      | some blob =>
          match jsonLoads blob with
          | some fb => (.ok fb, w1)
          | none => (.error .jsonError, w1)
      | none =>
          match w1.producer with
          | .fail => (.error .calledProcessError, w1)
          | .output blob =>
            match jsonLoads blob with
            | some fb => (.ok fb, w1)
            | none => (.error .jsonError, w1)
  else
    match w.producer with
    | .fail => (.error .calledProcessError, w)
    | .output blob =>
      match jsonLoads blob with
      | none => (.error .jsonError, w)
      | some fb =>
        let fb1 := injectSid fb sid
        match cachePath w sid with
        | (.error e, w1) => (.error e, w1)
        | (.ok path, w1) =>
          if w1.writeOk then
            (.ok fb1, { w1 with files := writeFileList w1.files path (jsonDump fb1) })
          else
            (.error .osError, w1)

/-! ## Matcher lemmas -/

/-- The query cursor advances in a loop iteration exactly when the current
query character case-insensitively equals the text character. -/
theorem step_q_idx (cfg : Config) (q : List Char) (i : Nat) (c : Char)
    (st : MatchState) :
    (step cfg q i c st).q_idx =
      if nextMatchB q st.q_idx c then st.q_idx + 1 else st.q_idx := by
  by_cases hnm : nextMatchB q st.q_idx c <;>
    simp only [step, hnm, Bool.true_and, Bool.false_and, Bool.true_or,
      Bool.false_or, eq_self_iff_true, if_true, Bool.false_eq_true,
      if_false] <;>
    (repeat' split) <;> rfl

/-- The query cursor of the scoring loop evolves exactly as the greedy
scan. -/
theorem matchLoop_q_idx (cfg : Config) (q : List Char) :
    ∀ (t : List Char) (i : Nat) (st : MatchState),
      (matchLoop cfg q i t st).q_idx = greedyAdv q st.q_idx t := by
  intro t
  induction t with
  | nil => intro i st; rfl
  | cons c rest ih =>
      intro i st
      simp only [matchLoop, greedyAdv, ih, step_q_idx]

/-- The matched flag of `fuzzyMatch` is the final query cursor reaching
the query's end; committing a leftover pending letter does not move the
cursor. -/
theorem fuzzyMatch_fst (cfg : Config) (q t : List Char) :
    (fuzzyMatch cfg q t).1 =
      ((matchLoop cfg q 0 t initState).q_idx == q.length) := by
  simp only [fuzzyMatch]
  split <;> rfl

/-- Greedy completeness: the greedy scan consumes the whole query iff the
lowercased query suffix is a sublist (subsequence) of the lowercased
text. -/
theorem greedyAdv_spec (q : List Char) :
    ∀ (t : List Char) (i : Nat), i ≤ q.length →
      (greedyAdv q i t = q.length ↔
        List.Sublist ((q.drop i).map Char.toLower) (t.map Char.toLower)) := by
  intro t
  induction t with
  | nil =>
      intro i hi
      simp only [greedyAdv, List.map_nil, List.sublist_nil, List.map_eq_nil_iff,
        List.drop_eq_nil_iff]
      omega
  | cons c rest ih =>
      intro i hi
      cases hqi : q[i]? with
      | none =>
          have hlen : q.length ≤ i := by
            simpa using List.getElem?_eq_none_iff.mp hqi
          have hieq : i = q.length := le_antisymm hi hlen
          have hdrop : q.drop i = [] := by
            simp [List.drop_eq_nil_iff, hlen]
          have hnm : nextMatchB q i c = false := by
            simp [nextMatchB, hqi]
          simp only [greedyAdv, hnm, if_neg, Bool.false_eq_true,
            ite_false, ih i hi, hdrop, List.map_nil, List.nil_sublist,
            List.map_cons]
      | some p =>
          have hilt : i < q.length := by
            rcases Nat.lt_or_ge i q.length with h | h
            · exact h
            · rw [List.getElem?_eq_none_iff.mpr h] at hqi; cases hqi
          have hdrop : q.drop i = p :: q.drop (i + 1) := by
            have := List.drop_eq_getElem_cons hilt
            rwa [(List.getElem?_eq_some_iff.mp hqi).2] at this
          by_cases hnm : nextMatchB q i c
          · have hpl : p.toLower = c.toLower := by
              have := hnm
              simp only [nextMatchB, hqi, Option.any_some, beq_iff_eq] at this
              exact this
            simp only [greedyAdv, hnm, ite_true, ih (i + 1) hilt, hdrop,
              List.map_cons, hpl, List.cons_sublist_cons]
          · have hpl : ¬ p.toLower = c.toLower := by
              simpa [nextMatchB, hqi] using hnm
            have hne :
                List.Sublist (p.toLower :: (q.drop (i + 1)).map Char.toLower)
                    (c.toLower :: rest.map Char.toLower) ↔
                  List.Sublist (p.toLower :: (q.drop (i + 1)).map Char.toLower)
                    (rest.map Char.toLower) := by
              rw [List.cons_sublist_cons']
              simp [hpl]
            simp only [greedyAdv, hnm, Bool.false_eq_true, ite_false,
              ih i hi, hdrop, List.map_cons, hne]

/-- C4: For every configuration, query string and text string, the matched
flag returned by `match(query, text)` is true iff the characters of the
query occur, case-insensitively, in the text in the same relative order
(not necessarily contiguously); in particular `match("abc", "ABC")`
returns matched=true and `match("ba", "ab")` returns matched=false. -/
theorem claim_C4_match_iff_subsequence :
    (∀ (cfg : Config) (q t : List Char),
      ((fuzzyMatch cfg q t).1 = true ↔
        List.Sublist (q.map Char.toLower) (t.map Char.toLower))) ∧
    (fuzzyMatch defaultConfig "abc".toList "ABC".toList).1 = true ∧
    (fuzzyMatch defaultConfig "ba".toList "ab".toList).1 = false := by
  refine ⟨fun cfg q t => ?_, by decide, by decide⟩
  rw [fuzzyMatch_fst, matchLoop_q_idx, beq_iff_eq]
  have h := greedyAdv_spec q t 0 (Nat.zero_le _)
  simpa [initState] using h

/-- When the current query character is exhausted or mismatched and the
pending best letter (if any) also mismatches, a loop iteration only adds
the unmatched penalty and updates the carry-over flags. -/
theorem step_unmatched (cfg : Config) (q : List Char) (i : Nat) (c : Char)
    (st : MatchState) (hq : q[st.q_idx]? = none)
    (hb : ∀ bl, st.best_lower = some bl → ¬ bl = c.toLower) :
    step cfg q i c st =
      { st with
          score := st.score + cfg.unmatched_penalty
          prev_match := false
          prev_lower := (c == c.toLower) && (c.toLower != c.toUpper)
          prev_sep := cfg.separators.contains c } := by
  have hnm : nextMatchB q st.q_idx c = false := by
    simp [nextMatchB, hq]
  have hrem : (st.best_lower == some c.toLower) = false := by
    cases hbl : st.best_lower with
    | none => rfl
    | some bl => simpa using hb bl hbl
  simp only [step, hq, hnm, hrem, Option.any_none, Bool.false_and,
    Bool.and_false, Bool.false_or, Bool.or_self, Bool.false_eq_true,
    ite_false]

/-- With an empty query the loop never matches anything: it adds the
unmatched penalty once per text character and leaves the cursor and the
(absent) pending letter untouched. -/
theorem matchLoop_empty_query (cfg : Config) :
    ∀ (t : List Char) (i : Nat) (st : MatchState),
      st.best_letter = none → st.best_lower = none →
      (matchLoop cfg [] i t st).score =
          st.score + (t.length : Int) * cfg.unmatched_penalty ∧
        (matchLoop cfg [] i t st).q_idx = st.q_idx ∧
        (matchLoop cfg [] i t st).best_letter = none := by
  intro t
  induction t with
  | nil => intro i st _ hbl2; simp [matchLoop, *]
  | cons c rest ih =>
      intro i st hbl hbl2
      have hstep := step_unmatched cfg [] i c st (by simp [hbl]) ?hb
      case hb => intro bl h; rw [hbl2] at h; cases h
      have hnext := ih (i + 1)
          ({ st with
              score := st.score + cfg.unmatched_penalty
              prev_match := false
              prev_lower := (c == c.toLower) && (c.toLower != c.toUpper)
              prev_sep := cfg.separators.contains c }) hbl hbl2
      simp only [matchLoop, hstep]
      refine ⟨?_, hnext.2.1, hnext.2.2⟩
      rw [hnext.1]
      simp only [List.length_cons]
      push_cast
      ring

/-- C5: For every text T (and every configuration), `match("", T)` returns
matched=true and score `len(T) * unmatchedPenalty` (with the default
penalty of -1, score `-len(T)`). -/
theorem claim_C5_empty_query :
    ∀ (cfg : Config) (t : List Char),
      fuzzyMatch cfg [] t = (true, (t.length : Int) * cfg.unmatched_penalty) := by
  intro cfg t
  obtain ⟨hs, hq, hb⟩ := matchLoop_empty_query cfg t 0 initState rfl rfl
  simp only [fuzzyMatch, hb, Option.isSome_none, Bool.false_eq_true,
    ite_false, hq, hs]
  simp [initState]

/-- Processing a concatenated text is processing the two parts in
sequence. -/
theorem matchLoop_append (cfg : Config) (q : List Char) :
    ∀ (t1 t2 : List Char) (i : Nat) (st : MatchState),
      matchLoop cfg q i (t1 ++ t2) st =
        matchLoop cfg q (i + t1.length) t2 (matchLoop cfg q i t1 st) := by
  intro t1
  induction t1 with
  | nil => intro t2 i st; simp [matchLoop]
  | cons c rest ih =>
      intro t2 i st
      have h1 : matchLoop cfg q i ((c :: rest) ++ t2) st =
          matchLoop cfg q (i + 1) (rest ++ t2) (step cfg q i c st) := rfl
      rw [h1, ih]
      have h2 : i + (c :: rest).length = i + 1 + rest.length := by
        simp only [List.length_cons]; omega
      rw [h2]
      rfl

/-- The default bonus sum computed for a freshly matched letter is
nonnegative. -/
theorem bonus_sum_nonneg (p q r : Prop) [Decidable p] [Decidable q]
    [Decidable r] :
    (0 : Int) ≤ (if p then 5 else 0) + (if q then 10 else 0) +
      (if r then 10 else 0) := by
  split_ifs <;> norm_num

/-- Under the default configuration, a loop iteration whose text character
equals the current query character (and whose pending slot is either
filled, or empty with zero score) advances the cursor and installs that
character as the pending best letter. -/
theorem step_self (Q : List Char) (k : Nat) (c : Char) (st : MatchState)
    (hq : Q[k]? = some c) (hk : st.q_idx = k)
    (hb : st.best_letter.isSome = true ∨
      (st.best_letter = none ∧ st.best_letter_score = 0)) :
    (step defaultConfig Q k c st).q_idx = k + 1 ∧
      (step defaultConfig Q k c st).best_letter = some c ∧
      (step defaultConfig Q k c st).best_lower = some c.toLower := by
  have hnm : nextMatchB Q k c = true := by
    simp [nextMatchB, hq]
  rcases hb with hsome | ⟨hnone, hzero⟩
  · simp only [step, hk, hnm, hq, hsome, Option.any_some,
      Option.isSome_some, Option.isSome_none, Bool.true_and, Bool.false_and,
      Bool.and_true, Bool.and_false, Bool.true_or, Bool.false_or,
      Bool.or_false, eq_self_iff_true, if_true, ite_true,
      Bool.false_eq_true, if_false, ite_false, defaultConfig]
    rw [if_pos (bonus_sum_nonneg _ _ _)]
    exact ⟨rfl, rfl, rfl⟩
  · simp only [step, hk, hnm, hq, hnone, hzero, Option.any_some,
      Option.isSome_some, Option.isSome_none, Bool.true_and, Bool.false_and,
      Bool.and_true, Bool.and_false, Bool.true_or, Bool.false_or,
      Bool.or_false, eq_self_iff_true, if_true, ite_true,
      Bool.false_eq_true, if_false, ite_false, defaultConfig]
    rw [if_pos (bonus_sum_nonneg _ _ _)]
    exact ⟨rfl, rfl, rfl⟩

/-- Matching a text against itself: starting from a state whose cursor is
at `k`, whose pending slot holds some letter `b`, and whose remaining text
equals the remaining query, the loop advances the cursor to the end and
leaves the last character pending. -/
theorem matchLoop_self (Q : List Char) :
    ∀ (v : List Char) (k : Nat) (st : MatchState) (b : Char),
      Q.drop k = v → st.q_idx = k → st.best_letter = some b →
      st.best_lower = some b.toLower →
      (matchLoop defaultConfig Q k v st).q_idx = k + v.length ∧
        (matchLoop defaultConfig Q k v st).best_letter =
          some (v.getLastD b) ∧
        (matchLoop defaultConfig Q k v st).best_lower =
          some ((v.getLastD b).toLower) := by
  intro v
  induction v with
  | nil =>
      intro k st b _ hk hbl hblo
      simp [matchLoop, hk, hbl, hblo]
  | cons c rest ih =>
      intro k st b hdrop hk hbl hblo
      have hq : Q[k]? = some c := by
        have h0 : (Q.drop k)[0]? = some c := by rw [hdrop]; simp
        rwa [List.getElem?_drop] at h0
      have hdrop' : Q.drop (k + 1) = rest := by
        have := List.drop_drop 1 k Q
        rw [hdrop] at this
        simpa using this.symm
      have hstep := step_self Q k c st hq hk (Or.inl (by rw [hbl]; rfl))
      have hrec := ih (k + 1) (step defaultConfig Q k c st) c hdrop'
        hstep.1 hstep.2.1 hstep.2.2
      have harith : (k + 1) + rest.length = k + (rest.length + 1) := by omega
      simp only [matchLoop, List.length_cons, List.getLastD_cons]
      exact ⟨by rw [hrec.1]; omega, hrec.2.1, hrec.2.2⟩

/-- The last element of a nonempty list, in `getLastD` form. -/
theorem getLast?_cons_eq {α : Type} (a : α) :
    ∀ (l : List α), (a :: l).getLast? = some (l.getLastD a)
  | [] => by simp
  | b :: l' => by
      rw [List.getLast?_cons_cons, getLast?_cons_eq b l', List.getLastD_cons]

/-- Evaluation of `fuzzyMatch` from a known final loop state whose pending
slot is filled. -/
theorem fuzzyMatch_eq_of_loop (cfg : Config) (q t : List Char)
    (st : MatchState) (h : matchLoop cfg q 0 t initState = st)
    (hbs : st.best_letter.isSome = true) :
    fuzzyMatch cfg q t =
      ((st.q_idx == q.length), st.score + st.best_letter_score) := by
  simp only [fuzzyMatch, h, hbs, eq_self_iff_true, if_true]

/-- C6 (amended): for every text T whose last character is not `x` or `X`,
`match(T, T)` under the default configuration returns matched=true with a
score strictly greater than `match(T, T + "x")` (which also matches).
For a text ending in `x`/`X` the trailing `"x"` can instead hit the
re-match branch and leave the score unchanged, so the hypothesis is
necessary. -/
theorem claim_C6_append_lowers_score :
    ∀ (T : List Char),
      (T.getLast?.all fun c => !(c.toLower == 'x')) = true →
      (fuzzyMatch defaultConfig T T).1 = true ∧
        (fuzzyMatch defaultConfig T (T ++ ['x'])).1 = true ∧
        (fuzzyMatch defaultConfig T (T ++ ['x'])).2 <
          (fuzzyMatch defaultConfig T T).2 := by
  intro T hlast
  cases T with
  | nil => exact ⟨by decide, by decide, by decide⟩
  | cons c rest =>
      have h0 := step_self (c :: rest) 0 c initState (by simp) rfl
        (Or.inr ⟨rfl, rfl⟩)
      have hloop := matchLoop_self (c :: rest) rest 1
        (step defaultConfig (c :: rest) 0 c initState) c (by simp)
        h0.1 h0.2.1 h0.2.2
      set stT := matchLoop defaultConfig (c :: rest) 0 (c :: rest) initState
        with hstT
      have hTT : stT = matchLoop defaultConfig (c :: rest) 1 rest
          (step defaultConfig (c :: rest) 0 c initState) := rfl
      have hq_idx : stT.q_idx = (c :: rest).length := by
        rw [hTT, hloop.1]; simp only [List.length_cons]; omega
      have hbl : stT.best_letter = some (rest.getLastD c) := by
        rw [hTT]; exact hloop.2.1
      have hblo : stT.best_lower = some ((rest.getLastD c).toLower) := by
        rw [hTT]; exact hloop.2.2
      have hlastc : (c :: rest).getLast? = some (rest.getLastD c) :=
        getLast?_cons_eq c rest
      have hxlast : ¬ (rest.getLastD c).toLower = 'x' := by
        rw [hlastc] at hlast
        simpa using hlast
      have hstepx := step_unmatched defaultConfig (c :: rest)
        ((c :: rest).length) 'x' stT
        (by rw [hq_idx]; exact List.getElem?_eq_none_iff.mpr (le_refl _))
        (by
          intro bl hblx
          rw [hblo] at hblx
          have hbl2 : (rest.getLastD c).toLower = bl := by
            injection hblx
          rw [← hbl2]
          have hxx : 'x'.toLower = 'x' := by decide
          rw [hxx]
          exact hxlast)
      have hTx : matchLoop defaultConfig (c :: rest) 0 ((c :: rest) ++ ['x'])
          initState =
            step defaultConfig (c :: rest) (0 + (c :: rest).length) 'x' stT := by
        rw [matchLoop_append]
        rfl
      have hz : 0 + (c :: rest).length = (c :: rest).length := by omega
      rw [hz] at hTx
      have hX : matchLoop defaultConfig (c :: rest) 0 ((c :: rest) ++ ['x'])
          initState =
            { stT with
                score := stT.score + defaultConfig.unmatched_penalty
                prev_match := false
                prev_lower := ('x' == 'x'.toLower) && ('x'.toLower != 'x'.toUpper)
                prev_sep := defaultConfig.separators.contains 'x' } := by
        rw [hTx, hstepx]
      have hA := fuzzyMatch_eq_of_loop defaultConfig (c :: rest) (c :: rest)
        stT hstT.symm (by rw [hbl]; rfl)
      have hB := fuzzyMatch_eq_of_loop defaultConfig (c :: rest)
        ((c :: rest) ++ ['x']) _ hX (by show stT.best_letter.isSome = true; rw [hbl]; rfl)
      refine ⟨?_, ?_, ?_⟩
      · rw [hA]; simp [hq_idx]
      · rw [hB]
        show (stT.q_idx == (c :: rest).length) = true
        simp [hq_idx]
      · rw [hA, hB]
        show stT.score + defaultConfig.unmatched_penalty +
            stT.best_letter_score < stT.score + stT.best_letter_score
        have hpen : defaultConfig.unmatched_penalty = -1 := rfl
        rw [hpen]
        omega

/-- C6 counterexample: for `T = "x"` the claimed strict inequality fails —
the trailing `"x"` is absorbed by the re-match branch without an unmatched
penalty, so `match("x","x")` and `match("x","xx")` both score 10. -/
theorem claim_C6_counterexample :
    (fuzzyMatch defaultConfig "x".toList "x".toList).1 = true ∧
      (fuzzyMatch defaultConfig "x".toList ("x".toList ++ ['x'])).1 = true ∧
      (fuzzyMatch defaultConfig "x".toList "x".toList).2 =
        (fuzzyMatch defaultConfig "x".toList ("x".toList ++ ['x'])).2 := by
  decide

/-- C6 witness: the amended theorem applied at the concrete text `"ab"`. -/
theorem claim_C6_witness :
    (fuzzyMatch defaultConfig "ab".toList ("ab".toList ++ ['x'])).2 <
      (fuzzyMatch defaultConfig "ab".toList "ab".toList).2 :=
  (claim_C6_append_lowers_score "ab".toList (by decide)).2.2

/-! ## The Python 2 comparison used by `items.sort(reverse=True)` -/

theorem pyCmpStr_swap : ∀ a b, pyCmpStr b a = (pyCmpStr a b).swap := by
  intro a
  induction a with
  | nil => intro b; cases b <;> rfl
  | cons x xs ih =>
      intro b
      cases b with
      | nil => rfl
      | cons y ys =>
          simp only [pyCmpStr]
          split_ifs <;> first | rfl | omega | exact ih ys

theorem pyCmpStr_eq_iff : ∀ a b, pyCmpStr a b = .eq ↔ a = b := by
  intro a
  induction a with
  | nil => intro b; cases b <;> simp [pyCmpStr]
  | cons x xs ih =>
      intro b
      cases b with
      | nil => simp [pyCmpStr]
      | cons y ys =>
          simp only [pyCmpStr]
          split_ifs with h1 h2
          · constructor
            · intro hc; cases hc
            · intro hc
              rw [List.cons.injEq] at hc
              rcases hc with ⟨h3, _⟩
              subst h3
              omega
          · constructor
            · intro hc; cases hc
            · intro hc
              rw [List.cons.injEq] at hc
              rcases hc with ⟨h3, _⟩
              subst h3
              omega
          · have heq : x.toNat = y.toNat := by omega
            have hxy : x = y := Char.ext (UInt32.toNat.inj heq)
            subst hxy
            simp [ih ys]

theorem pyCmpStr_lt_trans :
    ∀ a b c, pyCmpStr a b = .lt → pyCmpStr b c = .lt → pyCmpStr a c = .lt := by
  intro a
  induction a with
  | nil =>
      intro b c hab hbc
      cases c with
      | nil =>
          cases b with
          | nil => cases hab
          | cons y ys => cases hbc
      | cons z zs => rfl
  | cons x xs ih =>
      intro b c hab hbc
      cases b with
      | nil => cases hab
      | cons y ys =>
          cases c with
          | nil => cases hbc
          | cons z zs =>
              simp only [pyCmpStr] at hab hbc ⊢
              split_ifs at hab hbc ⊢ <;>
                first
                  | rfl
                  | exact absurd hab (by decide)
                  | exact absurd hbc (by decide)
                  | omega
                  | exact ih ys zs hab hbc

theorem pyCmpInt_swap (a b : Int) : pyCmpInt b a = (pyCmpInt a b).swap := by
  unfold pyCmpInt
  split_ifs <;> first | rfl | omega

theorem pyCmpInt_eq_iff (a b : Int) : pyCmpInt a b = .eq ↔ a = b := by
  unfold pyCmpInt
  split_ifs with h1 h2
  · constructor
    · intro hc; cases hc
    · intro hc; omega
  · constructor
    · intro hc; cases hc
    · intro hc; omega
  · constructor
    · intro _; omega
    · intro _; rfl

theorem pyCmpInt_lt_iff (a b : Int) : pyCmpInt a b = .lt ↔ a < b := by
  unfold pyCmpInt
  split_ifs with h1 h2
  · exact ⟨fun _ => h1, fun _ => rfl⟩
  · constructor
    · intro hc; cases hc
    · intro hc; omega
  · constructor
    · intro hc; cases hc
    · intro hc; omega

theorem pyCmpItem_swap (a b : Item) : pyCmpItem b a = (pyCmpItem a b).swap := by
  rcases a with ⟨ta, ma⟩
  rcases b with ⟨tb, mb⟩
  cases ma with
  | none =>
      cases mb with
      | none =>
          simp only [pyCmpItem]
          exact pyCmpStr_swap ta tb
      | some m => rfl
  | some ma' =>
      cases mb with
      | none => rfl
      | some mb' =>
          simp only [pyCmpItem]
          rw [pyCmpStr_swap ma' mb', pyCmpStr_swap ta tb, Ordering.swap_then]

theorem pyCmpItem_eq_iff (a b : Item) : pyCmpItem a b = .eq ↔ a = b := by
  rcases a with ⟨ta, ma⟩
  rcases b with ⟨tb, mb⟩
  cases ma with
  | none =>
      cases mb with
      | none => simp [pyCmpItem, pyCmpStr_eq_iff, Item.mk.injEq]
      | some m => simp [pyCmpItem, Item.mk.injEq]
  | some ma' =>
      cases mb with
      | none => simp [pyCmpItem, Item.mk.injEq]
      | some mb' =>
          simp only [pyCmpItem, Ordering.then_eq_eq, pyCmpStr_eq_iff,
            Item.mk.injEq, Option.some.injEq]
          tauto

theorem pyCmpItem_lt_trans {a b c : Item} (hab : pyCmpItem a b = .lt)
    (hbc : pyCmpItem b c = .lt) : pyCmpItem a c = .lt := by
  rcases a with ⟨ta, ma⟩
  rcases b with ⟨tb, mb⟩
  rcases c with ⟨tc, mc⟩
  cases ma <;> cases mb <;> cases mc <;>
    simp only [pyCmpItem, Ordering.then_eq_lt] at hab hbc ⊢
  all_goals try exact absurd hab (by decide)
  all_goals try exact absurd hbc (by decide)
  all_goals try exact pyCmpStr_lt_trans _ _ _ hab hbc
  all_goals
    rcases hab with hab | ⟨hab1, hab2⟩ <;> rcases hbc with hbc | ⟨hbc1, hbc2⟩
  · exact Or.inl (pyCmpStr_lt_trans _ _ _ hab hbc)
  · rw [pyCmpStr_eq_iff] at hbc1
    exact Or.inl (by rw [← hbc1]; exact hab)
  · rw [pyCmpStr_eq_iff] at hab1
    exact Or.inl (by rw [hab1]; exact hbc)
  · rw [pyCmpStr_eq_iff] at hab1 hbc1
    refine Or.inr ⟨?_, pyCmpStr_lt_trans _ _ _ hab2 hbc2⟩
    rw [hab1, hbc1, pyCmpStr_eq_iff]

theorem pyCmpPair_swap (a b : Int × Item) :
    pyCmpPair b a = (pyCmpPair a b).swap := by
  unfold pyCmpPair
  rw [pyCmpInt_swap a.1 b.1, pyCmpItem_swap a.2 b.2, Ordering.swap_then]

theorem pyCmpPair_eq_iff (a b : Int × Item) : pyCmpPair a b = .eq ↔ a = b := by
  simp [pyCmpPair, Ordering.then_eq_eq, pyCmpInt_eq_iff, pyCmpItem_eq_iff,
    Prod.ext_iff]

theorem pyCmpPair_lt_trans {a b c : Int × Item} (hab : pyCmpPair a b = .lt)
    (hbc : pyCmpPair b c = .lt) : pyCmpPair a c = .lt := by
  simp only [pyCmpPair, Ordering.then_eq_lt, pyCmpInt_eq_iff,
    pyCmpInt_lt_iff] at hab hbc ⊢
  rcases hab with hab | ⟨hab1, hab2⟩ <;> rcases hbc with hbc | ⟨hbc1, hbc2⟩
  · exact Or.inl (by omega)
  · exact Or.inl (by omega)
  · exact Or.inl (by omega)
  · exact Or.inr ⟨by omega, pyCmpItem_lt_trans hab2 hbc2⟩

/-- Transitivity of "not strictly below" for the Python 2 tuple order. -/
theorem pyCmpPair_ge_trans {a b c : Int × Item} (hab : pyCmpPair a b ≠ .lt)
    (hbc : pyCmpPair b c ≠ .lt) : pyCmpPair a c ≠ .lt := by
  intro hac
  cases hord : pyCmpPair a b with
  | lt => exact hab hord
  | eq =>
      rw [pyCmpPair_eq_iff] at hord
      subst hord
      exact hbc hac
  | gt =>
      have hba : pyCmpPair b a = .lt := by
        rw [pyCmpPair_swap, hord]; rfl
      exact hbc (pyCmpPair_lt_trans hba hac)

theorem pyCmpPair_ge_of_lt {a b : Int × Item} (h : pyCmpPair a b = .lt) :
    pyCmpPair b a ≠ .lt := by
  rw [pyCmpPair_swap, h]
  intro hc
  cases hc

/-! ## Sortedness and membership of the stable descending sort -/

theorem mem_insertDesc {x y : Int × Item} :
    ∀ {l : List (Int × Item)}, y ∈ insertDesc x l ↔ y = x ∨ y ∈ l := by
  intro l
  induction l with
  | nil => simp [insertDesc]
  | cons z zs ih =>
      simp only [insertDesc]
      split_ifs with h
      · simp only [List.mem_cons, ih]
        tauto
      · simp only [List.mem_cons]

theorem pairwise_insertDesc {x : Int × Item} {l : List (Int × Item)}
    (hl : l.Pairwise fun a b => pyCmpPair a b ≠ .lt) :
    (insertDesc x l).Pairwise fun a b => pyCmpPair a b ≠ .lt := by
  induction l with
  | nil => simp [insertDesc]
  | cons z zs ih =>
      rcases List.pairwise_cons.mp hl with ⟨hz, hzs⟩
      simp only [insertDesc]
      split_ifs with h
      · refine List.pairwise_cons.mpr ⟨?_, ih hzs⟩
        intro w hw
        rcases mem_insertDesc.mp hw with rfl | hw'
        · exact pyCmpPair_ge_of_lt h
        · exact hz w hw'
      · refine List.pairwise_cons.mpr ⟨?_, hl⟩
        intro w hw
        rcases List.mem_cons.mp hw with rfl | hw'
        · exact h
        · exact pyCmpPair_ge_trans h (hz w hw')

theorem sortDesc_pairwise :
    ∀ l : List (Int × Item),
      (sortDesc l).Pairwise fun a b => pyCmpPair a b ≠ .lt
  | [] => by simp [sortDesc]
  | x :: xs => by
      simp only [sortDesc]
      exact pairwise_insertDesc (sortDesc_pairwise xs)

theorem mem_sortDesc {y : Int × Item} :
    ∀ {l : List (Int × Item)}, y ∈ sortDesc l ↔ y ∈ l := by
  intro l
  induction l with
  | nil => simp [sortDesc]
  | cons x xs ih => simp [sortDesc, mem_insertDesc, ih]

/-- Every scored pair collected by `filter_feedback` is an input item
paired with exactly its match score. -/
theorem mem_collectScored {cfg : Config} {fold : Bool} {q : List Char} :
    ∀ {l : List Item} {p : Int × Item}, p ∈ collectScored cfg fold q l →
      p.2 ∈ l ∧ p.1 = (fuzzyMatch cfg q (scoredTerms fold p.2)).2 := by
  intro l
  induction l with
  | nil => intro p hp; cases hp
  | cons it rest ih =>
      intro p hp
      simp only [collectScored] at hp
      split_ifs at hp with h
      · rcases List.mem_cons.mp hp with rfl | hp'
        · exact ⟨List.mem_cons_self it rest, rfl⟩
        · rcases ih hp' with ⟨h1, h2⟩
          exact ⟨List.mem_cons_of_mem _ h1, h2⟩
      · rcases ih hp with ⟨h1, h2⟩
        exact ⟨List.mem_cons_of_mem _ h1, h2⟩

/-- C10: the feedback filter only replaces the `items` entry — the
`variables` entry is unchanged and every surviving candidate record is one
of the unmodified input records.  (Python-level object identity of the
mutated dict is not expressible in a pure embedding; this is the
observable value-level content of the claim.) -/
theorem claim_C10_frame :
    ∀ (cfg : Config) (fb : FeedbackDoc) (q : List Char),
      (filter_feedback cfg fb q).vars = fb.vars ∧
        ∀ it, it ∈ (filter_feedback cfg fb q).items → it ∈ fb.items := by
  intro cfg fb q
  refine ⟨rfl, ?_⟩
  intro it hit
  simp only [filter_feedback, List.mem_map] at hit
  rcases hit with ⟨p, hp, rfl⟩
  exact (mem_collectScored (mem_sortDesc.mp hp)).1

/-- C10 witness: a surviving record of a concrete run is an input
record. -/
theorem claim_C10_witness :
    (⟨"a".toList, none⟩ : Item) ∈
      (FeedbackDoc.mk [⟨"a".toList, none⟩] none).items :=
  (claim_C10_frame defaultConfig ⟨[⟨"a".toList, none⟩], none⟩ "".toList).2
    ⟨"a".toList, none⟩ (by decide)

/-- C2 (amended): the surviving candidates are sorted by descending score,
but a tie on score is ordered by the descending Python 2 comparison of the
item records themselves (`items.sort(reverse=True)` compares the whole
`(score, item)` tuples); input order is preserved only between records
that compare equal. -/
theorem claim_C2_amended_order :
    ∀ (cfg : Config) (fb : FeedbackDoc) (q : List Char),
      ((filter_feedback cfg fb q).items).Pairwise fun a b =>
        scoreOf cfg q b < scoreOf cfg q a ∨
          (scoreOf cfg q a = scoreOf cfg q b ∧ pyCmpItem a b ≠ .lt) := by
  intro cfg fb q
  have hpw := sortDesc_pairwise (collectScored cfg (isascii q) q fb.items)
  have hpw2 : (sortDesc (collectScored cfg (isascii q) q fb.items)).Pairwise
      fun a b : Int × Item =>
        scoreOf cfg q b.2 < scoreOf cfg q a.2 ∨
          (scoreOf cfg q a.2 = scoreOf cfg q b.2 ∧ pyCmpItem a.2 b.2 ≠ .lt) := by
    refine hpw.imp_of_mem ?_
    intro a b ha hb hab
    have ha2 := mem_collectScored (mem_sortDesc.mp ha)
    have hb2 := mem_collectScored (mem_sortDesc.mp hb)
    have hsa : a.1 = scoreOf cfg q a.2 := ha2.2
    have hsb : b.1 = scoreOf cfg q b.2 := hb2.2
    rw [← hsa, ← hsb]
    have hab' : ¬ (pyCmpPair a b = Ordering.lt) := hab
    rw [show pyCmpPair a b = (pyCmpInt a.1 b.1).then (pyCmpItem a.2 b.2)
        from rfl, Ordering.then_eq_lt, pyCmpInt_lt_iff, pyCmpInt_eq_iff]
      at hab'
    push_neg at hab'
    rcases hab' with ⟨h1, h2⟩
    rcases lt_or_eq_of_le h1 with hlt | heq
    · exact Or.inl hlt
    · exact Or.inr ⟨heq.symm, h2 heq.symm⟩
  simp only [filter_feedback]
  exact List.pairwise_map.mpr hpw2

/-- C2 counterexample: two candidates with equal score whose output order
is the reverse of their input order — Python 2 breaks the score tie by
comparing the item dicts, so the claimed stable (input-order) tie-break is
false. -/
theorem claim_C2_counterexample :
    scoreOf defaultConfig "".toList ⟨"a".toList, none⟩ =
        scoreOf defaultConfig "".toList ⟨"b".toList, none⟩ ∧
      (filter_feedback defaultConfig
          ⟨[⟨"a".toList, none⟩, ⟨"b".toList, none⟩], none⟩ "".toList).items =
        [⟨"b".toList, none⟩, ⟨"a".toList, none⟩] := by
  constructor
  · decide
  · decide

/-- C7: the feedback filter decides a fold mode once per call from the
query alone — a singleton candidate survives exactly when the match
against its (folded iff the query is pure ASCII) match text succeeds; in
particular "café" as match text survives ASCII query "cafe", while
non-ASCII query "café" fails against match text "cafe". -/
theorem claim_C7_fold_mode :
    (∀ (cfg : Config) (q : List Char) (it : Item)
        (vs : Option (List (List Char × List Char))),
      ((filter_feedback cfg ⟨[it], vs⟩ q).items = [it] ↔
        (fuzzyMatch cfg q (scoredTerms (isascii q) it)).1 = true)) ∧
    (filter_feedback defaultConfig
        ⟨[⟨"x".toList, some "café".toList⟩], none⟩ "cafe".toList).items =
      [⟨"x".toList, some "café".toList⟩] ∧
    (filter_feedback defaultConfig
        ⟨[⟨"x".toList, some "cafe".toList⟩], none⟩ "café".toList).items =
      [] := by
  refine ⟨?_, by decide, by decide⟩
  intro cfg q it vs
  simp only [filter_feedback, collectScored]
  cases h : (fuzzyMatch cfg q (scoredTerms (isascii q) it)).1
  · simp [h, sortDesc]
  · simp [h, sortDesc, insertDesc]

/-- C8 counterexample: with the default weights and the empty query the
filter returns `["Safari","Chrome","Firefox"]` — the Safari/Chrome score
tie is broken by Python 2 dict comparison (`"Safari" > "Chrome"`), not by
original input order, so the claimed `["Chrome","Safari","Firefox"]` is
wrong. -/
theorem claim_C8_counterexample :
    (filter_feedback defaultConfig
        ⟨[⟨"Firefox".toList, none⟩, ⟨"Safari".toList, none⟩,
          ⟨"Chrome".toList, none⟩], none⟩ "".toList).items ≠
      [⟨"Chrome".toList, none⟩, ⟨"Safari".toList, none⟩,
        ⟨"Firefox".toList, none⟩] := by
  decide

/-- C8 (amended): query "fx" returns exactly Firefox; the empty query
returns all three by descending score with the Chrome/Safari tie broken by
descending Python 2 record comparison, i.e.
`["Safari","Chrome","Firefox"]`. -/
theorem claim_C8_amended_scenario :
    (filter_feedback defaultConfig
        ⟨[⟨"Firefox".toList, none⟩, ⟨"Safari".toList, none⟩,
          ⟨"Chrome".toList, none⟩], none⟩ "fx".toList).items =
      [⟨"Firefox".toList, none⟩] ∧
    (filter_feedback defaultConfig
        ⟨[⟨"Firefox".toList, none⟩, ⟨"Safari".toList, none⟩,
          ⟨"Chrome".toList, none⟩], none⟩ "".toList).items =
      [⟨"Safari".toList, none⟩, ⟨"Chrome".toList, none⟩,
        ⟨"Firefox".toList, none⟩] := by
  constructor
  · decide
  · decide

/-! ## Session-cache lemmas -/

theorem lookupFile_writeFileList :
    ∀ (l : List (String × Blob)) (p : String) (b : Blob),
      lookupFile (writeFileList l p b) p = some b := by
  intro l p b
  induction l with
  | nil => simp [writeFileList, lookupFile]
  | cons kv rest ih =>
      rcases kv with ⟨p', b'⟩
      simp only [writeFileList]
      split_ifs with h
      · simp [lookupFile]
      · simp only [lookupFile, if_neg h]
        exact ih

/-- Resumed session with a parseable cache file: the file's document is
returned and the world is untouched (in particular no producer run, no
write). -/
theorem load_resume_hit (w : World) (sid : String) (fb : FeedbackDoc)
    (he : w.envSession = some sid) (hd : w.dirExists = true)
    (hf : lookupFile w.files (cacheDirOf w ++ "/" ++ sid ++ ".json") =
      some (Blob.doc fb)) :
    load w = (Except.ok fb, w) := by
  simp [load, sessionId, cachePath, he, hd, hf, jsonLoads]

/-- Resumed session whose cache file is missing: the producer's output is
parsed and returned as-is — no session-id injection and no cache write. -/
theorem load_resume_miss (w : World) (sid : String) (fb : FeedbackDoc)
    (he : w.envSession = some sid) (hd : w.dirExists = true)
    (hf : lookupFile w.files (cacheDirOf w ++ "/" ++ sid ++ ".json") = none)
    (hp : w.producer = .output (Blob.doc fb)) :
    load w = (Except.ok fb, w) := by
  simp [load, sessionId, cachePath, he, hd, hf, hp, jsonLoads]

/-- New session with a well-behaved producer: the parsed document gets the
session id injected, is written to the session's cache file, and is
returned. -/
theorem load_new_ok (w : World) (fb : FeedbackDoc)
    (he : w.envSession = none) (hw : w.writeOk = true)
    (hd : w.dirExists = true ∨ w.mkdirOk = true)
    (hp : w.producer = .output (Blob.doc fb)) :
    load w =
      (Except.ok (injectSid fb (toString w.pid)),
        { w with
            dirExists := true
            files := writeFileList w.files
              (cacheDirOf w ++ "/" ++ toString w.pid ++ ".json")
              (Blob.doc (injectSid fb (toString w.pid))) }) := by
  rcases w with ⟨root, files, dirE, pid, env, prod, mk, wr⟩
  simp only at he hw hp
  subst he
  subst hw
  subst hp
  cases dirE with
  | true =>
      simp [load, sessionId, cachePath, cacheDirOf, jsonLoads, jsonDump]
  | false =>
      rcases hd with hd | hd
      · cases hd
      · simp only at hd
        subst hd
        simp [load, sessionId, cachePath, cacheDirOf, jsonLoads, jsonDump]

/-- C1: (i) a Resume-state `load()` whose cache file exists returns the
parsed file contents with the world unchanged — no write, and no producer
invocation (the producer field of the world is arbitrary, so a failing
producer gives the same result); (ii) after a New-session `load()` has
written the file, a Resume `load()` with the same token returns the
previously written document for any producer, including a failing one. -/
theorem claim_C1_cache_round_trip :
    (∀ (w : World) (sid : String) (fb : FeedbackDoc),
      w.envSession = some sid → w.dirExists = true →
      lookupFile w.files (cacheDirOf w ++ "/" ++ sid ++ ".json") =
        some (Blob.doc fb) →
      load w = (Except.ok fb, w)) ∧
    (∀ (w : World) (fb : FeedbackDoc),
      w.envSession = none → w.writeOk = true →
      (w.dirExists = true ∨ w.mkdirOk = true) →
      w.producer = .output (Blob.doc fb) →
      ∃ w1, load w = (Except.ok (injectSid fb (toString w.pid)), w1) ∧
        ∀ p,
          load { w1 with envSession := some (toString w.pid), producer := p } =
            (Except.ok (injectSid fb (toString w.pid)),
              { w1 with envSession := some (toString w.pid), producer := p })) := by
  refine ⟨load_resume_hit, ?_⟩
  intro w fb he hw hd hp
  refine ⟨_, load_new_ok w fb he hw hd hp, ?_⟩
  intro p
  apply load_resume_hit
  · rfl
  · rfl
  · exact lookupFile_writeFileList _ _ _

/-- C1 witness: both parts at concrete worlds; part (i) is exercised with
a producer that would fail if invoked. -/
theorem claim_C1_witness :
    load { cacheRoot := "r", files := [("r/_fuzzy/tok.json", Blob.doc ⟨[], none⟩)], dirExists := true, pid := 7, envSession := some "tok", producer := .fail, mkdirOk := true, writeOk := true } =
      (Except.ok (FeedbackDoc.mk [] none),
        { cacheRoot := "r", files := [("r/_fuzzy/tok.json", Blob.doc ⟨[], none⟩)], dirExists := true, pid := 7, envSession := some "tok", producer := .fail, mkdirOk := true, writeOk := true }) ∧
    (∃ w1,
      load { cacheRoot := "r", files := [], dirExists := true, pid := 7, envSession := none, producer := .output (Blob.doc ⟨[], none⟩), mkdirOk := true, writeOk := true } =
          (Except.ok (injectSid ⟨[], none⟩ (toString 7)), w1) ∧
      ∀ p, load { w1 with envSession := some (toString 7), producer := p } =
        (Except.ok (injectSid ⟨[], none⟩ (toString 7)),
          { w1 with envSession := some (toString 7), producer := p })) :=
  ⟨claim_C1_cache_round_trip.1 _ "tok" ⟨[], none⟩ rfl rfl (by decide),
    claim_C1_cache_round_trip.2 _ ⟨[], none⟩ rfl rfl (Or.inl rfl) rfl⟩

/-- C3 counterexample: a Resume-state `load()` with a missing cache file
invokes the producer but returns the parsed output **without** injecting
the session token (the returned document has no variable map) and
**without** writing a cache file (the world, including its empty file
listing, is unchanged) — contradicting the claimed inject-and-write
behaviour. -/
theorem claim_C3_counterexample :
    load { cacheRoot := "r", files := [], dirExists := true, pid := 1, envSession := some "tok", producer := .output (Blob.doc ⟨[], none⟩), mkdirOk := true, writeOk := true } =
      (Except.ok (FeedbackDoc.mk [] none),
        { cacheRoot := "r", files := [], dirExists := true, pid := 1, envSession := some "tok", producer := .output (Blob.doc ⟨[], none⟩), mkdirOk := true, writeOk := true }) ∧
    (FeedbackDoc.mk [] none).vars = none := by
  constructor
  · rfl
  · rfl

/-- C3 (amended): a Resume-state `load()` with a missing cache file
invokes the producer, parses its output and returns it **as-is** — no
token injection, no cache write; only a New-state `load()` injects the
token into the variable map, writes the document to the token's cache
file, and returns it. -/
theorem claim_C3_amended_behavior :
    (∀ (w : World) (sid : String) (fb : FeedbackDoc),
      w.envSession = some sid → w.dirExists = true →
      lookupFile w.files (cacheDirOf w ++ "/" ++ sid ++ ".json") = none →
      w.producer = .output (Blob.doc fb) →
      load w = (Except.ok fb, w)) ∧
    (∀ (w : World) (fb : FeedbackDoc),
      w.envSession = none → w.writeOk = true →
      (w.dirExists = true ∨ w.mkdirOk = true) →
      w.producer = .output (Blob.doc fb) →
      load w =
        (Except.ok (injectSid fb (toString w.pid)),
          { w with
              dirExists := true
              files := writeFileList w.files
                (cacheDirOf w ++ "/" ++ toString w.pid ++ ".json")
                (Blob.doc (injectSid fb (toString w.pid))) })) :=
  ⟨load_resume_miss, load_new_ok⟩

/-- C3 witness: both amended behaviours at concrete worlds. -/
theorem claim_C3_witness :
    load { cacheRoot := "r", files := [], dirExists := true, pid := 2, envSession := some "s", producer := .output (Blob.doc ⟨[], none⟩), mkdirOk := true, writeOk := true } =
      (Except.ok (FeedbackDoc.mk [] none),
        { cacheRoot := "r", files := [], dirExists := true, pid := 2, envSession := some "s", producer := .output (Blob.doc ⟨[], none⟩), mkdirOk := true, writeOk := true }) ∧
    load { cacheRoot := "r", files := [], dirExists := false, pid := 2, envSession := none, producer := .output (Blob.doc ⟨[], none⟩), mkdirOk := true, writeOk := true } =
      (Except.ok (injectSid ⟨[], none⟩ (toString 2)),
        { cacheRoot := "r", files := [("r/_fuzzy/2.json", Blob.doc (injectSid ⟨[], none⟩ (toString 2)))], dirExists := true, pid := 2, envSession := none, producer := .output (Blob.doc ⟨[], none⟩), mkdirOk := true, writeOk := true }) :=
  ⟨claim_C3_amended_behavior.1 _ "s" ⟨[], none⟩ rfl rfl rfl rfl,
    claim_C3_amended_behavior.2 _ ⟨[], none⟩ rfl rfl (Or.inr rfl) rfl⟩

/-- C9: every failure is fatal with no retry and no partial result, and
the returned world is the unchanged input world — in particular a
New-state `load()` that fails on a producer error or unparseable producer
output has created or modified no cache file (and not even the cache
directory).  Conjuncts: (1) malformed cache file, (2) Resume-state
directory-creation failure, (3) Resume-state (cache miss) producer
failure, (4) Resume-state (cache miss) unparseable producer output,
(5) New-state producer failure, (6) New-state unparseable producer
output, (7) New-state directory-creation failure, (8) New-state
file-write failure. -/
theorem claim_C9_fatal_failures :
    (∀ (w : World) (sid : String),
      w.envSession = some sid → w.dirExists = true →
      lookupFile w.files (cacheDirOf w ++ "/" ++ sid ++ ".json") =
        some Blob.malformed →
      load w = (Except.error PyErr.jsonError, w)) ∧
    (∀ (w : World) (sid : String),
      w.envSession = some sid → w.dirExists = false → w.mkdirOk = false →
      load w = (Except.error PyErr.osError, w)) ∧
    (∀ (w : World) (sid : String),
      w.envSession = some sid → w.dirExists = true →
      lookupFile w.files (cacheDirOf w ++ "/" ++ sid ++ ".json") = none →
      w.producer = .fail →
      load w = (Except.error PyErr.calledProcessError, w)) ∧
    (∀ (w : World) (sid : String),
      w.envSession = some sid → w.dirExists = true →
      lookupFile w.files (cacheDirOf w ++ "/" ++ sid ++ ".json") = none →
      w.producer = .output Blob.malformed →
      load w = (Except.error PyErr.jsonError, w)) ∧
    (∀ (w : World),
      w.envSession = none → w.producer = .fail →
      load w = (Except.error PyErr.calledProcessError, w)) ∧
    (∀ (w : World),
      w.envSession = none → w.producer = .output Blob.malformed →
      load w = (Except.error PyErr.jsonError, w)) ∧
    (∀ (w : World) (fb : FeedbackDoc),
      w.envSession = none → w.producer = .output (Blob.doc fb) →
      w.dirExists = false → w.mkdirOk = false →
      load w = (Except.error PyErr.osError, w)) ∧
    (∀ (w : World) (fb : FeedbackDoc),
      w.envSession = none → w.producer = .output (Blob.doc fb) →
      w.dirExists = true → w.writeOk = false →
      load w = (Except.error PyErr.osError, w)) := by
  refine ⟨?_, ?_, ?_, ?_, ?_, ?_, ?_, ?_⟩
  · intro w sid he hd hf
    simp [load, sessionId, cachePath, he, hd, hf, jsonLoads]
  · intro w sid he hd hm
    simp [load, sessionId, cachePath, he, hd, hm]
  · intro w sid he hd hf hp
    simp [load, sessionId, cachePath, he, hd, hf, hp]
  · intro w sid he hd hf hp
    simp [load, sessionId, cachePath, he, hd, hf, hp, jsonLoads]
  · intro w he hp
    simp [load, sessionId, he, hp]
  · intro w he hp
    simp [load, sessionId, he, hp, jsonLoads]
  · intro w fb he hp hd hm
    simp [load, sessionId, cachePath, he, hp, hd, hm, jsonLoads]
  · intro w fb he hp hd hw
    simp [load, sessionId, cachePath, he, hp, hd, hw, jsonLoads]

/-- C9 witness: each failure conjunct at a concrete world. -/
theorem claim_C9_witness :
    load { cacheRoot := "r", files := [("r/_fuzzy/s.json", Blob.malformed)], dirExists := true, pid := 3, envSession := some "s", producer := .fail, mkdirOk := true, writeOk := true } =
      (Except.error PyErr.jsonError,
        { cacheRoot := "r", files := [("r/_fuzzy/s.json", Blob.malformed)], dirExists := true, pid := 3, envSession := some "s", producer := .fail, mkdirOk := true, writeOk := true }) ∧
    load { cacheRoot := "r", files := [], dirExists := false, pid := 3, envSession := some "s", producer := .fail, mkdirOk := false, writeOk := true } =
      (Except.error PyErr.osError,
        { cacheRoot := "r", files := [], dirExists := false, pid := 3, envSession := some "s", producer := .fail, mkdirOk := false, writeOk := true }) ∧
    load { cacheRoot := "r", files := [], dirExists := true, pid := 3, envSession := some "s", producer := .fail, mkdirOk := true, writeOk := true } =
      (Except.error PyErr.calledProcessError,
        { cacheRoot := "r", files := [], dirExists := true, pid := 3, envSession := some "s", producer := .fail, mkdirOk := true, writeOk := true }) ∧
    load { cacheRoot := "r", files := [], dirExists := true, pid := 3, envSession := some "s", producer := .output Blob.malformed, mkdirOk := true, writeOk := true } =
      (Except.error PyErr.jsonError,
        { cacheRoot := "r", files := [], dirExists := true, pid := 3, envSession := some "s", producer := .output Blob.malformed, mkdirOk := true, writeOk := true }) ∧
    load { cacheRoot := "r", files := [], dirExists := false, pid := 3, envSession := none, producer := .fail, mkdirOk := true, writeOk := true } =
      (Except.error PyErr.calledProcessError,
        { cacheRoot := "r", files := [], dirExists := false, pid := 3, envSession := none, producer := .fail, mkdirOk := true, writeOk := true }) ∧
    load { cacheRoot := "r", files := [], dirExists := false, pid := 3, envSession := none, producer := .output Blob.malformed, mkdirOk := true, writeOk := true } =
      (Except.error PyErr.jsonError,
        { cacheRoot := "r", files := [], dirExists := false, pid := 3, envSession := none, producer := .output Blob.malformed, mkdirOk := true, writeOk := true }) ∧
    load { cacheRoot := "r", files := [], dirExists := false, pid := 3, envSession := none, producer := .output (Blob.doc ⟨[], none⟩), mkdirOk := false, writeOk := true } =
      (Except.error PyErr.osError,
        { cacheRoot := "r", files := [], dirExists := false, pid := 3, envSession := none, producer := .output (Blob.doc ⟨[], none⟩), mkdirOk := false, writeOk := true }) ∧
    load { cacheRoot := "r", files := [], dirExists := true, pid := 3, envSession := none, producer := .output (Blob.doc ⟨[], none⟩), mkdirOk := true, writeOk := false } =
      (Except.error PyErr.osError,
        { cacheRoot := "r", files := [], dirExists := true, pid := 3, envSession := none, producer := .output (Blob.doc ⟨[], none⟩), mkdirOk := true, writeOk := false }) :=
  ⟨claim_C9_fatal_failures.1 _ "s" rfl rfl (by decide),
    claim_C9_fatal_failures.2.1 _ "s" rfl rfl rfl,
    claim_C9_fatal_failures.2.2.1 _ "s" rfl rfl (by decide) rfl,
    claim_C9_fatal_failures.2.2.2.1 _ "s" rfl rfl (by decide) rfl,
    claim_C9_fatal_failures.2.2.2.2.1 _ rfl rfl,
    claim_C9_fatal_failures.2.2.2.2.2.1 _ rfl rfl,
    claim_C9_fatal_failures.2.2.2.2.2.2.1 _ ⟨[], none⟩ rfl rfl rfl rfl,
    claim_C9_fatal_failures.2.2.2.2.2.2.2 _ ⟨[], none⟩ rfl rfl rfl rfl⟩

/-- C2 witness: the amended ordering theorem at a concrete run. -/
theorem claim_C2_witness :
    ((filter_feedback defaultConfig
        ⟨[⟨"a".toList, none⟩, ⟨"b".toList, none⟩], none⟩
        "".toList).items).Pairwise fun a b =>
      scoreOf defaultConfig "".toList b < scoreOf defaultConfig "".toList a ∨
        (scoreOf defaultConfig "".toList a =
            scoreOf defaultConfig "".toList b ∧ pyCmpItem a b ≠ .lt) :=
  claim_C2_amended_order defaultConfig
    ⟨[⟨"a".toList, none⟩, ⟨"b".toList, none⟩], none⟩ "".toList

/-- C4 witness: the subsequence characterisation at a concrete input. -/
theorem claim_C4_witness :
    (fuzzyMatch defaultConfig "ac".toList "abc".toList).1 = true ↔
      List.Sublist ("ac".toList.map Char.toLower)
        ("abc".toList.map Char.toLower) :=
  claim_C4_match_iff_subsequence.1 defaultConfig "ac".toList "abc".toList

/-- C5 witness: the empty-query law at a concrete text. -/
theorem claim_C5_witness :
    fuzzyMatch defaultConfig [] "abc".toList =
      (true, ("abc".toList.length : Int) * defaultConfig.unmatched_penalty) :=
  claim_C5_empty_query defaultConfig "abc".toList

/-- C7 witness: the fold-mode characterisation at a concrete input. -/
theorem claim_C7_witness :
    (filter_feedback defaultConfig ⟨[⟨"t".toList, none⟩], none⟩
        "t".toList).items = [⟨"t".toList, none⟩] ↔
      (fuzzyMatch defaultConfig "t".toList
        (scoredTerms (isascii "t".toList) ⟨"t".toList, none⟩)).1 = true :=
  claim_C7_fold_mode.1 defaultConfig "t".toList ⟨"t".toList, none⟩ none

end AlfredFuzzy
